import Mathlib

/- Verification of the peer-mesh coordination layer of SOMA
   (source: soma-api/src/mesh.rs).

   The Rust module computes with IEEE-754 binary64 (`f64`) values.  We model
   every `f64` value as the exact rational it denotes and every arithmetic
   operation as exact rational arithmetic followed by `r64`, the IEEE-754
   round-to-nearest, ties-to-even rounding to a 53-bit significand.  All
   values arising in this development are far inside the normal range of
   binary64, so neither overflow, underflow to subnormals, nor NaN/Inf can
   occur in the modelled computations, and `r64` on this range coincides
   with the hardware rounding.  `f64::min` / `f64::max` / `f64::clamp` and
   comparisons are exact on non-NaN values and are modelled without rounding.

   Machine integers (`i64` millisecond timestamps, `u32`/`usize` counters)
   stay far below their overflow bounds in all modelled scenarios and are
   modelled as ℤ / ℕ.  The `HashMap<String, PeerInfo>` registry is modelled
   as an association list with unique keys, `insert` replacing an existing
   binding exactly as `HashMap::insert` does. -/

set_option maxRecDepth 10000
set_option maxHeartbeats 2000000

attribute [local semireducible] Rat.add Rat.mul Rat.inv Rat.sub Rat.ofScientific

namespace Mesh

/-- Fuel-driven base-2 logarithm on naturals; structural recursion on the
fuel so that the kernel can evaluate it. -/
def log2fuel : Nat → Nat → Nat
  | 0, _ => 0
  | fuel+1, n => if 2 ≤ n then log2fuel fuel (n / 2) + 1 else 0

/-- Base-2 logarithm: for n ≥ 1, 2 ^ nlog2 n ≤ n < 2 ^ (nlog2 n + 1). -/
def nlog2 (n : Nat) : Nat := log2fuel n n

/-- Binary exponent of a positive rational: the unique e with 2^e ≤ x < 2^(e+1). -/
def rexp (x : ℚ) : ℤ :=
  if (2:ℚ) ^ ((nlog2 x.num.toNat : ℤ) - (nlog2 x.den : ℤ)) ≤ x
  then (nlog2 x.num.toNat : ℤ) - (nlog2 x.den : ℤ)
  else (nlog2 x.num.toNat : ℤ) - (nlog2 x.den : ℤ) - 1

/-- Round a rational to the nearest integer, ties to even. -/
def roundHalfEven (x : ℚ) : ℤ :=
  if x - (⌊x⌋ : ℚ) < 1/2 then ⌊x⌋
  else if 1/2 < x - (⌊x⌋ : ℚ) then ⌊x⌋ + 1
  else if ⌊x⌋ % 2 = 0 then ⌊x⌋ else ⌊x⌋ + 1

/-- Round a positive rational to the nearest binary64 value: round the
significand x / ulp to the nearest integer (ties to even) where
ulp = 2^(rexp x - 52) is the distance between consecutive 53-bit-significand
values at the magnitude of x. -/
def r64pos (x : ℚ) : ℚ :=
  (roundHalfEven (x / (2:ℚ) ^ (rexp x - 52)) : ℚ) * (2:ℚ) ^ (rexp x - 52)

/-- Round a rational to the nearest IEEE-754 binary64 value
(round to nearest, ties to even). -/
def r64 (x : ℚ) : ℚ :=
  if x = 0 then 0
  else if 0 < x then r64pos x
  else - r64pos (-x)

/-- Model of `f64` addition. -/
def fadd (a b : ℚ) : ℚ := r64 (a + b)

/-- Model of `f64` subtraction. -/
def fsub (a b : ℚ) : ℚ := r64 (a - b)

/-- Model of `f64` multiplication. -/
def fmul (a b : ℚ) : ℚ := r64 (a * b)

/-- Model of `f64` division. -/
def fdiv (a b : ℚ) : ℚ := r64 (a / b)

/-- Model of `f64::max` (exact on non-NaN values). -/
def fmax (a b : ℚ) : ℚ := max a b

/-- Model of `f64::min` (exact on non-NaN values). -/
def fmin (a b : ℚ) : ℚ := min a b

/-- Model of `f64::abs` (exact). -/
def fabs (a : ℚ) : ℚ := |a|

/-- Model of `f64::clamp(self, min, max)`: returns `min` if `self < min`,
`max` if `self > max`, otherwise `self`. -/
def fclamp (x lo hi : ℚ) : ℚ := if x < lo then lo else if hi < x then hi else x

/-- Model of an `i64` (or `usize`) value converted with `as f64`; exact for
magnitudes below 2^53, which covers every value in this development. -/
def i64f (n : ℤ) : ℚ := r64 (n : ℚ)

/-- The binary64 value of the literal `0.1`. -/
def f01 : ℚ := r64 (1/10)

/-- The binary64 value of the literal `0.2`. -/
def f02 : ℚ := r64 (1/5)

/-- The binary64 value of the literal `0.3`. -/
def f03 : ℚ := r64 (3/10)

/-- The binary64 value of the literal `0.06`. -/
def f006 : ℚ := r64 (3/50)

/-- The binary64 value of the literal `0.03`. -/
def f003 : ℚ := r64 (3/100)

/-- The binary64 value of the literal `0.002`. -/
def f0002 : ℚ := r64 (1/500)

theorem log2fuel_spec : ∀ (fuel n : ℕ), 1 ≤ n → n ≤ fuel →
    2 ^ log2fuel fuel n ≤ n ∧ n < 2 ^ (log2fuel fuel n + 1) := by
  intro fuel
  induction fuel with
  | zero => intro n h1 h2; omega
  | succ f ih =>
    intro n h1 h2
    by_cases h : 2 ≤ n
    · have hd1 : 1 ≤ n / 2 := by omega
      have hd2 : n / 2 ≤ f := by omega
      obtain ⟨hl, hr⟩ := ih (n / 2) hd1 hd2
      have hval : log2fuel (f + 1) n = log2fuel f (n / 2) + 1 := by
        simp [log2fuel, h]
      rw [hval]
      have e1 : 2 ^ (log2fuel f (n / 2) + 1) = 2 * 2 ^ log2fuel f (n / 2) := by ring
      have e2 : 2 ^ (log2fuel f (n / 2) + 1 + 1) = 2 * 2 ^ (log2fuel f (n / 2) + 1) := by ring
      omega
    · have hval : log2fuel (f + 1) n = 0 := by simp [log2fuel, h]
      rw [hval]; omega

theorem nlog2_spec {n : ℕ} (h1 : 1 ≤ n) : 2 ^ nlog2 n ≤ n ∧ n < 2 ^ (nlog2 n + 1) :=
  log2fuel_spec n n h1 le_rfl

theorem rexp_spec {x : ℚ} (hx : 0 < x) :
    (2:ℚ) ^ rexp x ≤ x ∧ x < (2:ℚ) ^ (rexp x + 1) := by
  have hnum : 0 < x.num := Rat.num_pos.mpr hx
  have hden : 0 < x.den := x.pos
  have ha1 : 1 ≤ x.num.toNat := by omega
  obtain ⟨hal, har⟩ := nlog2_spec ha1
  obtain ⟨hbl, hbr⟩ := nlog2_spec hden
  set la := nlog2 x.num.toNat with hla
  set lb := nlog2 x.den with hlb
  have hb0 : (0:ℚ) < (x.den : ℚ) := by exact_mod_cast hden
  have hcast : ((x.num.toNat : ℤ)) = x.num := Int.toNat_of_nonneg hnum.le
  have hab : x = (x.num.toNat : ℚ) / (x.den : ℚ) := by
    have h1 : ((x.num.toNat : ℚ)) = ((x.num : ℚ)) := by exact_mod_cast hcast
    rw [h1]
    exact (Rat.num_div_den x).symm
  have kA1 : ((2:ℚ) ^ la) ≤ (x.num.toNat : ℚ) := by exact_mod_cast hal
  have kA2 : ((x.num.toNat : ℚ)) < 2 ^ (la + 1) := by exact_mod_cast har
  have kB1 : ((2:ℚ) ^ lb) ≤ (x.den : ℚ) := by exact_mod_cast hbl
  have kB2 : ((x.den : ℚ)) < 2 ^ (lb + 1) := by exact_mod_cast hbr
  have hzp : ∀ (m : ℕ), ((2:ℚ) ^ (m : ℤ)) = 2 ^ m := fun m => zpow_natCast 2 m
  unfold rexp
  rw [← hla, ← hlb]
  split_ifs with h
  · refine ⟨h, ?_⟩
    rw [hab, div_lt_iff₀ hb0]
    calc (x.num.toNat : ℚ) < 2 ^ (la + 1) := kA2
    _ = (2:ℚ) ^ (((la:ℤ) - lb + 1) + (lb:ℤ)) := by
        rw [← hzp (la+1)]; congr 1; push_cast; ring
    _ = (2:ℚ) ^ ((la:ℤ) - lb + 1) * 2 ^ (lb:ℤ) := zpow_add₀ two_ne_zero _ _
    _ ≤ (2:ℚ) ^ ((la:ℤ) - lb + 1) * (x.den:ℚ) := by
        apply mul_le_mul_of_nonneg_left _ (le_of_lt (zpow_pos (by norm_num) _))
        rw [hzp]; exact kB1
  · constructor
    · rw [hab, le_div_iff₀ hb0]
      calc (2:ℚ) ^ ((la:ℤ) - lb - 1) * (x.den:ℚ)
          ≤ (2:ℚ) ^ ((la:ℤ) - lb - 1) * 2 ^ ((lb:ℤ)+1) := by
            apply mul_le_mul_of_nonneg_left _ (le_of_lt (zpow_pos (by norm_num) _))
            rw [show ((lb:ℤ)+1) = ((lb+1 : ℕ) : ℤ) by push_cast; ring, hzp]
            exact le_of_lt kB2
      _ = (2:ℚ) ^ (la:ℤ) := by
            rw [← zpow_add₀ (two_ne_zero (α := ℚ))]; congr 1; ring
      _ ≤ (x.num.toNat : ℚ) := by rw [hzp]; exact kA1
    · rw [sub_add_cancel]
      exact lt_of_not_le h

theorem roundHalfEven_err (x : ℚ) : |((roundHalfEven x : ℤ) : ℚ) - x| ≤ 1/2 := by
  unfold roundHalfEven
  have h1 : ((⌊x⌋ : ℤ) : ℚ) ≤ x := Int.floor_le x
  have h2 : x < (⌊x⌋ : ℚ) + 1 := Int.lt_floor_add_one x
  split_ifs with ha hb hc <;> rw [abs_le] <;> constructor <;> push_cast <;> linarith

theorem roundHalfEven_nonneg {x : ℚ} (hx : 0 ≤ x) : 0 ≤ roundHalfEven x := by
  unfold roundHalfEven
  have h1 : 0 ≤ ⌊x⌋ := Int.floor_nonneg.mpr hx
  split_ifs <;> omega

theorem r64pos_err {x : ℚ} (hx : 0 < x) : |r64pos x - x| ≤ (2:ℚ) ^ (rexp x - 53) := by
  unfold r64pos
  set u : ℚ := (2:ℚ) ^ (rexp x - 52) with hu
  have hu0 : 0 < u := zpow_pos (by norm_num) _
  have key : ((roundHalfEven (x/u) : ℤ) : ℚ) * u - x
      = (((roundHalfEven (x/u) : ℤ) : ℚ) - x/u) * u := by
    field_simp
  rw [key, abs_mul, abs_of_pos hu0]
  have hhalf : (2:ℚ) ^ (rexp x - 53) = (1/2) * u := by
    rw [hu, show rexp x - 53 = (-1) + (rexp x - 52) by ring,
      zpow_add₀ (two_ne_zero (α := ℚ))]
    norm_num
  rw [hhalf]
  exact mul_le_mul_of_nonneg_right (roundHalfEven_err _) hu0.le

theorem r64pos_nonneg {x : ℚ} (hx : 0 < x) : 0 ≤ r64pos x := by
  unfold r64pos
  have hu0 : (0:ℚ) < (2:ℚ) ^ (rexp x - 52) := zpow_pos (by norm_num) _
  have hr : (0:ℚ) ≤ ((roundHalfEven (x / (2:ℚ) ^ (rexp x - 52)) : ℤ) : ℚ) := by
    exact_mod_cast roundHalfEven_nonneg (le_of_lt (div_pos hx hu0))
  exact mul_nonneg hr hu0.le

theorem r64_nonneg {x : ℚ} (h : 0 ≤ x) : 0 ≤ r64 x := by
  unfold r64
  split_ifs with h0 hp
  · exact le_rfl
  · exact r64pos_nonneg hp
  · exact absurd (lt_of_le_of_ne h (Ne.symm h0)) hp

theorem r64_nonpos {x : ℚ} (h : x ≤ 0) : r64 x ≤ 0 := by
  unfold r64
  split_ifs with h0 hp
  · exact le_rfl
  · exact absurd hp (not_lt.mpr h)
  · have hneg : 0 < -x := by
      rcases lt_or_eq_of_le h with h' | h'
      · linarith
      · exact absurd h' h0
    linarith [r64pos_nonneg hneg]

theorem r64_err {x : ℚ} (h : |x| ≤ 2) : |r64 x - x| ≤ 1/2^52 := by
  have key : ∀ y : ℚ, 0 < y → y ≤ 2 → |r64pos y - y| ≤ 1/2^52 := by
    intro y hy hy2
    have he : rexp y ≤ 1 := by
      by_contra hcon
      push_neg at hcon
      have h4 : (2:ℚ) ^ (2:ℤ) ≤ 2 ^ rexp y := zpow_le_zpow_right₀ (by norm_num) (by omega)
      have hle := (rexp_spec hy).1
      norm_num at h4
      linarith
    calc |r64pos y - y| ≤ (2:ℚ) ^ (rexp y - 53) := r64pos_err hy
    _ ≤ (2:ℚ) ^ (-52 : ℤ) := zpow_le_zpow_right₀ (by norm_num) (by omega)
    _ = 1/2^52 := by
        rw [zpow_neg]
        norm_num
  unfold r64
  split_ifs with h0 hp
  · subst h0; norm_num
  · exact key x hp ((abs_le.mp h).2)
  · have hx : 0 < -x := by
      rcases lt_trichotomy x 0 with h' | h' | h'
      · linarith
      · exact absurd h' h0
      · exact absurd h' hp
    have h2 : -x ≤ 2 := by
      have := (abs_le.mp h).1; linarith
    have hk := key (-x) hx h2
    rw [show -r64pos (-x) - x = -(r64pos (-x) - (-x)) by ring, abs_neg]
    exact hk

theorem r64_bounds {x : ℚ} (h1 : -2 ≤ x) (h2 : x ≤ 2) :
    x - 1/2^52 ≤ r64 x ∧ r64 x ≤ x + 1/2^52 := by
  have h := r64_err (x := x) (abs_le.mpr ⟨h1, h2⟩)
  rw [abs_le] at h
  constructor <;> linarith [h.1, h.2]

/-- Health of the connection to a peer (`ConnectionHealth` in mesh.rs).
`Instant` timestamps are modelled as integer clock readings passed in by the
caller; they never influence `quality`. -/
structure ConnectionHealth where
  failures : ℕ
  successes : ℕ
  last_success : ℤ
  last_failure : Option ℤ
  quality : ℚ
deriving DecidableEq

namespace ConnectionHealth

/-- `ConnectionHealth::new()`: zero counters, quality 1.0. -/
def new (now : ℤ) : ConnectionHealth :=
  { failures := 0, successes := 0, last_success := now, last_failure := none,
    quality := 1 }

/-- `record_success`: `successes += 1`, refresh `last_success`,
`quality = (quality + 0.1).min(1.0)`. -/
def record_success (h : ConnectionHealth) (now : ℤ) : ConnectionHealth :=
  { h with successes := h.successes + 1, last_success := now,
           quality := fmin (fadd h.quality f01) 1 }

/-- `record_failure`: `failures += 1`, set `last_failure`,
`quality = (quality - 0.2).max(0.0)`. -/
def record_failure (h : ConnectionHealth) (now : ℤ) : ConnectionHealth :=
  { h with failures := h.failures + 1, last_failure := some now,
           quality := fmax (fsub h.quality f02) 0 }

end ConnectionHealth

/-- State kept per known peer (`PeerInfo` in mesh.rs). -/
structure PeerInfo where
  id : String
  last_seen : ℤ
  cells : ℕ
  generation : ℕ
  load : ℚ
  health : ConnectionHealth
  url : Option String
  connected : Bool
  weight : ℚ
  w_min : ℚ
  w_max : ℚ
  eta_pos : ℚ
  eta_neg : ℚ
  decay : ℚ
  last_fire_local : ℤ
  last_fire_remote : ℤ
deriving DecidableEq

namespace PeerInfo

/-- `PeerInfo::new(id)`: fresh peer created on Handshake receipt
(`connected = true`, no url, Hebbian defaults, weight 0.3). -/
def new (id : String) (now : ℤ) : PeerInfo :=
  { id := id, last_seen := now, cells := 0, generation := 0, load := 0,
    health := ConnectionHealth.new now, url := none, connected := true,
    weight := f03, w_min := f01, w_max := 1,
    eta_pos := f006, eta_neg := f003, decay := f0002,
    last_fire_local := 0, last_fire_remote := 0 }

/-- `PeerInfo::with_url(id, url)`: peer registered for auto-reconnect
(`connected = false`, url set, same defaults otherwise). -/
def with_url (id url : String) (now : ℤ) : PeerInfo :=
  { id := id, last_seen := now, cells := 0, generation := 0, load := 0,
    health := ConnectionHealth.new now, url := some url, connected := false,
    weight := f03, w_min := f01, w_max := 1,
    eta_pos := f006, eta_neg := f003, decay := f0002,
    last_fire_local := 0, last_fire_remote := 0 }

/-- `update_heartbeat`: refresh `last_seen`, record a health success. -/
def update_heartbeat (p : PeerInfo) (now : ℤ) : PeerInfo :=
  { p with last_seen := now, health := p.health.record_success now }

/-- `update_state`: mirror cells/generation/load, refresh `last_seen`,
record a health success. -/
def update_state (p : PeerInfo) (cells : ℕ) (generation : ℕ) (load : ℚ)
    (now : ℤ) : PeerInfo :=
  { p with cells := cells, generation := generation, load := load,
           last_seen := now, health := p.health.record_success now }

/-- `PeerInfo::record_failure`: delegate to the health record. -/
def record_failure (p : PeerInfo) (now : ℤ) : PeerInfo :=
  { p with health := p.health.record_failure now }

/-- `is_alive(timeout_ms)`: `now - last_seen < timeout_ms`. -/
def is_alive (p : PeerInfo) (timeout_ms now : ℤ) : Bool :=
  decide (now - p.last_seen < timeout_ms)

/-- `note_fire_local(ts)`: record the timestamp of the local Fire broadcast. -/
def note_fire_local (p : PeerInfo) (ts_ms : ℤ) : PeerInfo :=
  { p with last_fire_local := ts_ms }

/-- `note_fire_remote(ts)`: record the timestamp of a Fire frame from the peer. -/
def note_fire_remote (p : PeerInfo) (ts_ms : ℤ) : PeerInfo :=
  { p with last_fire_remote := ts_ms }

/-- First step of `hebbian_update(window_ms)`: the weight after the decay
`weight *= (1 - decay * dt).clamp(0, 1)` with `dt = window_ms as f64 / 1000.0`. -/
def decayedWeight (p : PeerInfo) (window_ms : ℤ) : ℚ :=
  fmul p.weight (fclamp (fsub 1 (fmul p.decay (fdiv (i64f window_ms) 1000))) 0 1)

/-- The co-fire / anti-fire adjustment of `hebbian_update`: applied on top of
the decayed weight when both fire timestamps are positive. -/
def firedWeight (p : PeerInfo) (window_ms : ℤ) : ℚ :=
  if 0 < p.last_fire_local ∧ 0 < p.last_fire_remote then
    if ((p.last_fire_local - p.last_fire_remote).natAbs : ℤ) ≤ window_ms then
      fadd (decayedWeight p window_ms)
        (fmul p.eta_pos (fsub p.w_max (decayedWeight p window_ms)))
    else
      fsub (decayedWeight p window_ms)
        (fmul p.eta_neg (fsub (decayedWeight p window_ms) p.w_min))
  else decayedWeight p window_ms

/-- `hebbian_update(window_ms)` assembled: decay, fire adjustment, then clamp
the weight into `[w_min, w_max]`. -/
def hebbian_update (p : PeerInfo) (window_ms : ℤ) : PeerInfo :=
  { p with weight := fclamp (firedWeight p window_ms) p.w_min p.w_max }

end PeerInfo

/-- Wire messages (`MeshMessage` in mesh.rs). -/
inductive MeshMessage where
  | Handshake (node_id : String) (timestamp : ℤ)
  | Heartbeat (node_id : String) (timestamp : ℤ)
  | StateSync (node_id : String) (cells : ℕ) (generation : ℕ) (load : ℚ) (timestamp : ℤ)
  | Fire (node_id : String) (timestamp : ℤ)
  | Ack (node_id : String) (ack_to : String) (timestamp : ℤ)
deriving DecidableEq

/-- The peer registry `HashMap<String, PeerInfo>`, modelled as an association
list; `HashMap` iteration order is unspecified, and no property proved below
depends on the order of entries. -/
abbrev Registry : Type := List (String × PeerInfo)

namespace Registry

/-- Lookup (`HashMap::get` / `get_mut` hit test). -/
def find? : Registry → String → Option PeerInfo
  | [], _ => none
  | (k, v) :: r, key => if k = key then some v else find? r key

/-- `HashMap::insert`: replaces the binding if the key is present. -/
def insertR : Registry → String → PeerInfo → Registry
  | [], k, v => [(k, v)]
  | (k0, v0) :: r, k, v => if k0 = k then (k, v) :: r else (k0, v0) :: insertR r k v

/-- The `if let Some(peer) = peers_map.get_mut(id)` pattern: update the entry
in place when present, do nothing otherwise. -/
def modifyR : Registry → String → (PeerInfo → PeerInfo) → Registry
  | [], _, _ => []
  | (k0, v0) :: r, k, f =>
      if k0 = k then (k0, f v0) :: r else (k0, v0) :: modifyR r k f

/-- The `for peer in peers_map.values_mut()` pattern: update every entry. -/
def mapR (f : PeerInfo → PeerInfo) : Registry → Registry
  | [] => []
  | (k, v) :: r => (k, f v) :: mapR f r

end Registry

open Registry

/-- One iteration of the inbound task of `handle_peer_connection`: dispatch a
parsed `MeshMessage`, returning the updated registry and the messages queued
on the outbound channel in reply.  `now` models `Utc::now().timestamp_millis()`
(and the `Instant::now()` reading taken inside health updates). -/
def dispatchInbound (own_id : String) (now : ℤ) (reg : Registry) :
    MeshMessage → Registry × List MeshMessage
  | .Handshake peer_id _ =>
      (insertR reg peer_id (PeerInfo.new peer_id now),
       [MeshMessage.Ack own_id peer_id now])
  | .Heartbeat peer_id _ =>
      (modifyR reg peer_id (fun p => p.update_heartbeat now), [])
  | .StateSync peer_id cells generation load _ =>
      (modifyR reg peer_id (fun p => p.update_state cells generation load now), [])
  | .Fire peer_id ts =>
      (modifyR reg peer_id (fun p => (p.note_fire_remote ts).hebbian_update 120), [])
  | .Ack _ _ _ => (reg, [])

/-- One iteration of the outbound (send) task of `handle_peer_connection`:
if the socket write fails, record a health failure for every peer in the
registry and stop (`break`); otherwise continue.  The returned Bool is the
continue flag. -/
def sendTaskStep (reg : Registry) (writeOk : Bool) (now : ℤ) : Registry × Bool :=
  if writeOk then (reg, true)
  else (mapR (fun p => p.record_failure now) reg, false)

/-- `register_peer(peer_id, url)`: insert a fresh `PeerInfo::with_url`. -/
def register_peer (reg : Registry) (peer_id url : String) (now : ℤ) : Registry :=
  insertR reg peer_id (PeerInfo.with_url peer_id url now)

/-- The `Err` arm of `attempt_connect_to_peer`: a failed dial records a health
failure on the target peer only. -/
def attempt_connect_failure (reg : Registry) (peer_id : String) (now : ℤ) : Registry :=
  modifyR reg peer_id (fun p => { p with health := p.health.record_failure now })

/-- Eligibility filter of `start_reconnect_loop`'s sweep:
`!connected && url.is_some() && health.quality > 0.0`. -/
def reconnectEligible (p : PeerInfo) : Bool :=
  !p.connected && p.url.isSome && decide (0 < p.health.quality)

/-- The peers a reconnect sweep selects: the eligible ones, paired with their
reconnect url (`url.clone().unwrap()`; the filter guarantees the url is set,
so the `Option.getD` default is never used). -/
def reconnectTargets (reg : Registry) : List (String × String) :=
  (reg.filter (fun kv => reconnectEligible kv.2)).map
    (fun kv => (kv.2.id, kv.2.url.getD ""))

/-- Loads of the alive peers (`filter is_alive(15000)` then `map load`),
in registry order. -/
def aliveLoads (reg : Registry) (now : ℤ) : List ℚ :=
  (reg.filter (fun kv => kv.2.is_alive 15000 now)).map (fun kv => kv.2.load)

/-- `iter().sum::<f64>()`: left fold of f64 addition starting from 0.0. -/
def fsum (l : List ℚ) : ℚ := l.foldl fadd 0

/-- `compute_network_resonance(current_load)`: 1.0 with no peers or no alive
peers, otherwise `(1 - min(|current_load - avg|, 1)).max(0)` with `avg` the
f64 mean of alive peers' loads. -/
def compute_network_resonance (reg : Registry) (now : ℤ) (current_load : ℚ) : ℚ :=
  if reg.isEmpty then 1
  else
    if (aliveLoads reg now).isEmpty then 1
    else
      fmax
        (fsub 1 (fmin (fabs (fsub current_load
          (fdiv (fsum (aliveLoads reg now)) (i64f (aliveLoads reg now).length)))) 1))
        0

/-- `compute_resonance_correction(current_load, strength)`: 0.0 with no peers
or no alive peers, otherwise `(avg - current_load) * strength`. -/
def compute_resonance_correction (reg : Registry) (now : ℤ)
    (current_load strength : ℚ) : ℚ :=
  if reg.isEmpty then 0
  else
    if (aliveLoads reg now).isEmpty then 0
    else
      fmul
        (fsub (fdiv (fsum (aliveLoads reg now)) (i64f (aliveLoads reg now).length))
          current_load)
        strength

/-- Result record of `get_resonance_stats`. -/
structure ResonanceStats where
  peer_count : ℕ
  avg_load : ℚ
  min_load : ℚ
  max_load : ℚ
  resonance : ℚ
  variance : ℚ
deriving DecidableEq

/-- Minimum of a list of loads.  The source folds `f64::min` from
`f64::INFINITY`; on the nonempty lists this is applied to (the branch below
guards emptiness) that equals folding from the first element, which is how
the model, having no infinities in ℚ, renders it. -/
def foldMin : List ℚ → ℚ
  | [] => 0
  | x :: r => r.foldl fmin x

/-- Maximum of a list of loads; the source folds `f64::max` from
`f64::NEG_INFINITY`, equal on nonempty lists to folding from the head. -/
def foldMax : List ℚ → ℚ
  | [] => 0
  | x :: r => r.foldl fmax x

/-- Population variance as the source computes it: f64 sum of squared
deviations over the count. -/
def loadVariance (loads : List ℚ) (avg : ℚ) : ℚ :=
  fdiv (fsum (loads.map (fun l => fmul (fsub l avg) (fsub l avg)))) (i64f loads.length)

/-- `get_resonance_stats(current_load)`: with no alive peers, a record echoing
`current_load` with resonance 1.0 and variance 0.0; otherwise the alive-peer
statistics. -/
def get_resonance_stats (reg : Registry) (now : ℤ) (current_load : ℚ) :
    ResonanceStats :=
  if (aliveLoads reg now).isEmpty then
    { peer_count := 0, avg_load := current_load, min_load := current_load,
      max_load := current_load, resonance := 1, variance := 0 }
  else
    { peer_count := (aliveLoads reg now).length,
      avg_load := fdiv (fsum (aliveLoads reg now)) (i64f (aliveLoads reg now).length),
      min_load := foldMin (aliveLoads reg now),
      max_load := foldMax (aliveLoads reg now),
      resonance :=
        fmax (fsub 1 (fmin (fabs (fsub current_load
          (fdiv (fsum (aliveLoads reg now)) (i64f (aliveLoads reg now).length)))) 1)) 0,
      variance := loadVariance (aliveLoads reg now)
        (fdiv (fsum (aliveLoads reg now)) (i64f (aliveLoads reg now).length)) }

/-- An event on a `ConnectionHealth` value: one `record_success` or
`record_failure` call, carrying the clock reading taken inside the call. -/
inductive HealthEvent where
  | success (now : ℤ)
  | failure (now : ℤ)

/-- Apply one health event. -/
def healthStep (h : ConnectionHealth) : HealthEvent → ConnectionHealth
  | .success now => h.record_success now
  | .failure now => h.record_failure now

/-- The health state after a sequence of record_success/record_failure calls,
starting from `ConnectionHealth::new()` taken at time `t0`. -/
def runHealth (t0 : ℤ) (evs : List HealthEvent) : ConnectionHealth :=
  evs.foldl healthStep (ConnectionHealth.new t0)

theorem quality_step_bounds {h : ConnectionHealth}
    (h0 : 0 ≤ h.quality) (h1 : h.quality ≤ 1) (e : HealthEvent) :
    0 ≤ (healthStep h e).quality ∧ (healthStep h e).quality ≤ 1 := by
  have hf01 : (0:ℚ) ≤ f01 ∧ f01 ≤ 1/4 := by constructor <;> decide
  have hf02 : (1:ℚ)/5 ≤ f02 ∧ f02 ≤ 1/4 := by constructor <;> decide
  cases e with
  | success now =>
    simp only [healthStep, ConnectionHealth.record_success, fmin, fadd]
    constructor
    · exact le_min (r64_nonneg (by linarith [hf01.1])) (by norm_num)
    · exact min_le_right _ _
  | failure now =>
    simp only [healthStep, ConnectionHealth.record_failure, fmax, fsub]
    constructor
    · exact le_max_right _ _
    · apply max_le _ (by norm_num)
      by_cases hc : h.quality - f02 ≤ 0
      · exact le_trans (r64_nonpos hc) (by norm_num)
      · have hb := (r64_bounds (x := h.quality - f02)
          (by linarith [hf02.2]) (by linarith [hf02.1])).2
        have hμ : (1:ℚ)/2^52 ≤ 1/5 := by norm_num
        linarith [hf02.1]

/-- C1: starting at quality 1.0 with zero counters, every interleaving of
`record_success` and `record_failure` calls leaves `quality` inside [0, 1]
after every call (every call boundary is the state reached by some prefix of
the event list, so quantifying over all event lists covers them all). -/
theorem C1_quality_always_in_unit_interval (t0 : ℤ) (evs : List HealthEvent) :
    0 ≤ (runHealth t0 evs).quality ∧ (runHealth t0 evs).quality ≤ 1 := by
  suffices hgen : ∀ (l : List HealthEvent) (h : ConnectionHealth),
      0 ≤ h.quality → h.quality ≤ 1 →
      0 ≤ (l.foldl healthStep h).quality ∧ (l.foldl healthStep h).quality ≤ 1 by
    exact hgen evs _ (by norm_num [ConnectionHealth.new]) (by norm_num [ConnectionHealth.new])
  intro l
  induction l with
  | nil => intro h h0 h1; exact ⟨h0, h1⟩
  | cons e t ih =>
    intro h h0 h1
    obtain ⟨s0, s1⟩ := quality_step_bounds h0 h1 e
    exact ih _ s0 s1

/-- An event on a `PeerInfo`: one `hebbian_update`, `note_fire_local` or
`note_fire_remote` call. -/
inductive HebEvent where
  | update (window_ms : ℤ)
  | fire_local (ts : ℤ)
  | fire_remote (ts : ℤ)

/-- Apply one Hebbian event. -/
def hebStep (p : PeerInfo) : HebEvent → PeerInfo
  | .update w => p.hebbian_update w
  | .fire_local ts => p.note_fire_local ts
  | .fire_remote ts => p.note_fire_remote ts

/-- The peer state after a sequence of Hebbian events. -/
def runHeb (p0 : PeerInfo) (evs : List HebEvent) : PeerInfo :=
  evs.foldl hebStep p0

theorem fclamp_mem {x lo hi : ℚ} (h : lo ≤ hi) :
    lo ≤ fclamp x lo hi ∧ fclamp x lo hi ≤ hi := by
  unfold fclamp
  split_ifs with h1 h2
  · exact ⟨le_rfl, h⟩
  · exact ⟨h, le_rfl⟩
  · exact ⟨not_lt.mp h1, not_lt.mp h2⟩

theorem hebStep_keeps_bounds_fields (p : PeerInfo) (e : HebEvent) :
    (hebStep p e).w_min = p.w_min ∧ (hebStep p e).w_max = p.w_max := by
  cases e <;>
    simp [hebStep, PeerInfo.hebbian_update, PeerInfo.note_fire_local,
      PeerInfo.note_fire_remote]

theorem runHeb_keeps_bounds_fields (p0 : PeerInfo) (evs : List HebEvent) :
    (runHeb p0 evs).w_min = p0.w_min ∧ (runHeb p0 evs).w_max = p0.w_max := by
  suffices hgen : ∀ (l : List HebEvent) (p : PeerInfo),
      (l.foldl hebStep p).w_min = p.w_min ∧ (l.foldl hebStep p).w_max = p.w_max from
    hgen evs p0
  intro l
  induction l with
  | nil => intro p; exact ⟨rfl, rfl⟩
  | cons e t ih =>
    intro p
    obtain ⟨k1, k2⟩ := hebStep_keeps_bounds_fields p e
    obtain ⟨ize1, ize2⟩ := ih (hebStep p e)
    exact ⟨by rw [List.foldl_cons, ize1, k1], by rw [List.foldl_cons, ize2, k2]⟩

/-- C2: starting from the default weight 0.3, any interleaving of
`note_fire_local` / `note_fire_remote` with `hebbian_update` calls whose
windows are nonnegative keeps the weight inside [0.1, 1.0] after every
`hebbian_update` call (any such call boundary is a reachable state followed
by one more update). -/
theorem C2_weight_always_in_bounds (id : String) (t0 : ℤ) (evs : List HebEvent)
    (hall : ∀ w, HebEvent.update w ∈ evs → 0 ≤ w) (w : ℤ) (hw : 0 ≤ w) :
    1/10 ≤ ((runHeb (PeerInfo.new id t0) evs).hebbian_update w).weight ∧
      ((runHeb (PeerInfo.new id t0) evs).hebbian_update w).weight ≤ 1 := by
  obtain ⟨hmin, hmax⟩ := runHeb_keeps_bounds_fields (PeerInfo.new id t0) evs
  have hmin' : (runHeb (PeerInfo.new id t0) evs).w_min = f01 := hmin
  have hmax' : (runHeb (PeerInfo.new id t0) evs).w_max = 1 := hmax
  have hwt : ((runHeb (PeerInfo.new id t0) evs).hebbian_update w).weight
      = fclamp (PeerInfo.firedWeight (runHeb (PeerInfo.new id t0) evs) w) f01 1 := by
    simp only [PeerInfo.hebbian_update]
    rw [hmin', hmax']
  rw [hwt]
  obtain ⟨c1, c2⟩ := fclamp_mem
    (x := PeerInfo.firedWeight (runHeb (PeerInfo.new id t0) evs) w)
    (show f01 ≤ (1:ℚ) by decide)
  exact ⟨le_trans (by decide : (1:ℚ)/10 ≤ f01) c1, c2⟩

/-- Closed witness for C2 at a concrete event list and window. -/
theorem C2_weight_always_in_bounds_witness :
    (0:ℤ) ≤ 120 ∧
    (1/10 ≤ ((runHeb (PeerInfo.new "p" 0)
        [HebEvent.fire_local 10, HebEvent.fire_remote 40,
         HebEvent.update 120]).hebbian_update 120).weight ∧
      ((runHeb (PeerInfo.new "p" 0)
        [HebEvent.fire_local 10, HebEvent.fire_remote 40,
         HebEvent.update 120]).hebbian_update 120).weight ≤ 1) :=
  ⟨by decide,
   C2_weight_always_in_bounds "p" 0
     [HebEvent.fire_local 10, HebEvent.fire_remote 40, HebEvent.update 120]
     (by intro w hw; simp at hw; omega) 120 (by decide)⟩

theorem find?_insertR (reg : Registry) (k : String) (v : PeerInfo) :
    find? (insertR reg k v) k = some v := by
  induction reg with
  | nil => simp [insertR, find?]
  | cons kv r ih =>
    by_cases h : kv.1 = k
    · simp [insertR, h, find?]
    · simp only [insertR, if_neg h]
      simp [find?, h, ih]

theorem find?_modifyR (reg : Registry) (k : String) (f : PeerInfo → PeerInfo) :
    find? (modifyR reg k f) k = (find? reg k).map f := by
  induction reg with
  | nil => simp [modifyR, find?]
  | cons kv r ih =>
    by_cases h : kv.1 = k
    · simp [modifyR, h, find?]
    · simp only [modifyR, if_neg h]
      simp [find?, h, ih]

theorem modifyR_of_find?_none {reg : Registry} {k : String}
    (h : find? reg k = none) (f : PeerInfo → PeerInfo) :
    modifyR reg k f = reg := by
  induction reg with
  | nil => rfl
  | cons kv r ih =>
    by_cases hk : kv.1 = k
    · rw [show kv = (kv.1, kv.2) from rfl, find?, if_pos hk] at h
      exact absurd h (by simp)
    · rw [show kv = (kv.1, kv.2) from rfl, find?, if_neg hk] at h
      simp only [modifyR, if_neg hk]
      rw [ih h]

theorem find?_mapR (f : PeerInfo → PeerInfo) (reg : Registry) (k : String) :
    find? (mapR f reg) k = (find? reg k).map f := by
  induction reg with
  | nil => rfl
  | cons kv r ih =>
    by_cases h : kv.1 = k
    · simp [mapR, find?, h]
    · simp [mapR, find?, h, ih]

/-- C4 (amended): dispatching an inbound `Handshake{peer_id}` replaces the
registry entry for peer_id by a fresh default `PeerInfo::new` — an existing
entry's url, weight and health are reset, not preserved — and queues exactly
one `Ack{own_id, ack_to: peer_id}` in reply. -/
theorem C4_handshake_replaces_entry_and_acks
    (own pid : String) (ts now : ℤ) (reg : Registry) :
    find? (dispatchInbound own now reg (.Handshake pid ts)).1 pid
        = some (PeerInfo.new pid now) ∧
    (dispatchInbound own now reg (.Handshake pid ts)).2
        = [MeshMessage.Ack own pid now] :=
  ⟨by simp [dispatchInbound, find?_insertR], rfl⟩

/-- C4 counterexample: a peer registered with a url and a degraded health
quality loses both when its Handshake arrives — the url reverts to `none` and
the quality to 1.0 — refuting the claim that an existing entry keeps its url,
weight and health fields. -/
theorem C4_counterexample :
    (find? (attempt_connect_failure (register_peer [] "p1" "ws:p1" 0) "p1" 1) "p1").map
        (fun p => (p.url, p.health.quality))
      = some (some "ws:p1", 3602879701896397/4503599627370496) ∧
    (find? (dispatchInbound "me" 5
        (attempt_connect_failure (register_peer [] "p1" "ws:p1" 0) "p1" 1)
        (.Handshake "p1" 5)).1 "p1").map (fun p => (p.url, p.health.quality))
      = some (none, 1) := by
  constructor <;> decide

/-- C6: when the outbound task's socket write fails, every registry entry —
not only the peer behind the failed socket — receives exactly one
`record_failure`, and the task's continue flag becomes false (the `break`). -/
theorem C6_write_failure_fails_every_peer (reg : Registry) (now : ℤ) :
    (sendTaskStep reg false now).2 = false ∧
    ∀ k, find? (sendTaskStep reg false now).1 k
        = (find? reg k).map (fun p => p.record_failure now) := by
  refine ⟨rfl, fun k => ?_⟩
  simp only [sendTaskStep, Bool.false_eq_true, if_false]
  exact find?_mapR _ reg k

/-- C9: an inbound Heartbeat, StateSync or Fire frame whose node_id is not a
key of the registry leaves the registry exactly unchanged and queues no
reply; only Handshake creates entries. -/
theorem C9_unknown_peer_frames_leave_registry_unchanged
    (own : String) (now ts : ℤ) (reg : Registry) (pid : String)
    (h : find? reg pid = none) (cells generation : ℕ) (load : ℚ) :
    dispatchInbound own now reg (.Heartbeat pid ts) = (reg, []) ∧
    dispatchInbound own now reg (.StateSync pid cells generation load ts) = (reg, []) ∧
    dispatchInbound own now reg (.Fire pid ts) = (reg, []) := by
  refine ⟨?_, ?_, ?_⟩ <;> simp [dispatchInbound, modifyR_of_find?_none h]

/-- Closed witness for C9: a registry holding only peer "a" is untouched by a
Heartbeat from the unknown peer "b". -/
theorem C9_unknown_peer_frames_witness :
    find? [("a", PeerInfo.new "a" 0)] "b" = none ∧
    dispatchInbound "me" 7 [("a", PeerInfo.new "a" 0)] (.Heartbeat "b" 7)
      = ([("a", PeerInfo.new "a" 0)], []) :=
  ⟨by decide,
   (C9_unknown_peer_frames_leave_registry_unchanged "me" 7 7
     [("a", PeerInfo.new "a" 0)] "b" (by decide) 0 0 0).1⟩

theorem aliveLoads_eq_nil {reg : Registry} {now : ℤ}
    (h : ∀ kv ∈ reg, kv.2.is_alive 15000 now = false) :
    aliveLoads reg now = [] := by
  unfold aliveLoads
  rw [List.filter_eq_nil_iff.mpr (by intro kv hkv; simp [h kv hkv])]
  rfl

/-- C7: with an empty registry, and likewise with a registry whose peers are
all stale (`is_alive(15000)` false), `compute_resonance_correction` returns
0.0 and `compute_network_resonance` returns 1.0, for every load and strength. -/
theorem C7_resonance_defaults_without_alive_peers (reg : Registry) (now : ℤ)
    (h : ∀ kv ∈ reg, kv.2.is_alive 15000 now = false) (load strength : ℚ) :
    compute_resonance_correction reg now load strength = 0 ∧
    compute_network_resonance reg now load = 1 := by
  have hl : aliveLoads reg now = [] := aliveLoads_eq_nil h
  unfold compute_resonance_correction compute_network_resonance
  rw [hl]
  constructor <;> split_ifs <;> simp_all [List.isEmpty]

/-- Closed witness for C7: one registered peer whose last_seen is 15000 ms in
the past is stale, so the defaults are returned. -/
theorem C7_resonance_defaults_witness :
    (∀ kv ∈ register_peer [] "p1" "ws:p1" 0, kv.2.is_alive 15000 15000 = false) ∧
    compute_resonance_correction (register_peer [] "p1" "ws:p1" 0) 15000 (7/10) (1/10) = 0 ∧
    compute_network_resonance (register_peer [] "p1" "ws:p1" 0) 15000 (7/10) = 1 :=
  ⟨by decide,
   C7_resonance_defaults_without_alive_peers _ 15000 (by decide) (7/10) (1/10)⟩

/-- C10: when no registry peer is alive, `get_resonance_stats(local_load)`
returns peer_count 0, all three load statistics equal to the local load,
resonance 1.0 and variance 0.0. -/
theorem C10_stats_without_alive_peers (reg : Registry) (now : ℤ) (load : ℚ)
    (h : ∀ kv ∈ reg, kv.2.is_alive 15000 now = false) :
    get_resonance_stats reg now load =
      { peer_count := 0, avg_load := load, min_load := load, max_load := load,
        resonance := 1, variance := 0 } := by
  have hl : aliveLoads reg now = [] := aliveLoads_eq_nil h
  unfold get_resonance_stats
  rw [hl]
  rfl

/-- Closed witness for C10 at a concrete stale registry. -/
theorem C10_stats_without_alive_peers_witness :
    (∀ kv ∈ register_peer [] "p1" "ws:p1" 0, kv.2.is_alive 15000 99999 = false) ∧
    get_resonance_stats (register_peer [] "p1" "ws:p1" 0) 99999 (3/5) =
      { peer_count := 0, avg_load := 3/5, min_load := 3/5, max_load := 3/5,
        resonance := 1, variance := 0 } :=
  ⟨by decide, C10_stats_without_alive_peers _ 99999 (3/5) (by decide)⟩

/-- The `ConnectionHealth` after n consecutive `record_failure()` calls on a
fresh value, no intervening success (the clock reading passed to each call
does not affect `quality`; 0 is used). -/
def failuresIter : ℕ → ConnectionHealth
  | 0 => ConnectionHealth.new 0
  | n+1 => (failuresIter n).record_failure 0

/-- The quality the spec claims after n failures: `max(1.0 - 0.2 * n, 0.0)`,
evaluated in the program's f64 arithmetic. -/
def specQuality (n : ℕ) : ℚ := fmax (fsub 1 (fmul f02 (i64f n))) 0

/-- C5 counterexample: after exactly 2 consecutive `record_failure()` calls
the quality is 0.8f64 - 0.2f64 = 0.6000000000000001 (one ulp above 0.6f64),
which differs both from the f64 evaluation of `max(1.0 - 0.2*2, 0.0)` and
from the exact value 3/5 — the claimed equality fails at n = 2. -/
theorem C5_counterexample :
    (failuresIter 2).quality ≠ specQuality 2 ∧ (failuresIter 2).quality ≠ 3/5 := by
  constructor <;> decide

/-- C5 (amended): for n = 0..5 the quality after n consecutive failures
agrees with `max(1.0 - 0.2*n, 0.0)` only to within 2^-50 (accumulated
rounding error); exact equality holds only for n = 0 and n = 1.  In
particular the quality after 5 failures is 2^-54, not 0. -/
theorem C5_quality_after_failures_amended (n : ℕ) (hn : n ≤ 5) :
    |(failuresIter n).quality - specQuality n| ≤ 1/2^50 ∧
    (n ≤ 1 → (failuresIter n).quality = specQuality n) := by
  interval_cases n
  · exact ⟨by decide, fun _ => by decide⟩
  · exact ⟨by decide, fun _ => by decide⟩
  · exact ⟨by decide, fun h => by omega⟩
  · exact ⟨by decide, fun h => by omega⟩
  · exact ⟨by decide, fun h => by omega⟩
  · exact ⟨by decide, fun h => by omega⟩

/-- Closed witness for the amended C5 at n = 5, where the quality is 2^-54. -/
theorem C5_quality_after_failures_witness :
    (5:ℕ) ≤ 5 ∧
    (|(failuresIter 5).quality - specQuality 5| ≤ 1/2^50 ∧
      ((5:ℕ) ≤ 1 → (failuresIter 5).quality = specQuality 5)) :=
  ⟨by decide, C5_quality_after_failures_amended 5 (by decide)⟩

/-- A sequence of failed dial attempts against peer `pid` (the `Err` arm of
`attempt_connect_to_peer`), one per clock reading in `ts`. -/
def dialFailures (reg : Registry) (pid : String) (ts : List ℤ) : Registry :=
  ts.foldl (fun r t => attempt_connect_failure r pid t) reg

/-- C3 counterexample: after exactly 5 consecutive dial failures the
registered peer's quality is 2^-54 — not 0.0, because the five f64
subtractions of 0.2 from 1.0 leave a one-ulp residue — and the reconnect
sweep therefore still selects the peer. -/
theorem C3_counterexample :
    (find? (dialFailures (register_peer [] "p1" "ws:p1" 0) "p1" [1, 2, 3, 4, 5]) "p1").map
        (fun p => p.health.quality) = some (1/2^54) ∧
    reconnectTargets (dialFailures (register_peer [] "p1" "ws:p1" 0) "p1" [1, 2, 3, 4, 5])
      = [("p1", "ws:p1")] := by
  constructor <;> decide

/-- One `record_failure` as a function of the quality alone. -/
def qstep (q : ℚ) : ℚ := fmax (fsub q f02) 0

theorem find?_register_peer (pid url : String) (t0 : ℤ) :
    find? (register_peer [] pid url t0) pid = some (PeerInfo.with_url pid url t0) := by
  simp [register_peer, insertR, find?]

theorem find?_dialFailures (reg : Registry) (pid : String) (ts : List ℤ) :
    find? (dialFailures reg pid ts) pid
      = (find? reg pid).map
          (fun p => ts.foldl
            (fun q t => { q with health := q.health.record_failure t }) p) := by
  induction ts generalizing reg with
  | nil => cases h : find? reg pid <;> simp [dialFailures, h]
  | cons t ts ih =>
    simp only [dialFailures, List.foldl_cons]
    rw [show List.foldl (fun r t => attempt_connect_failure r pid t)
          (attempt_connect_failure reg pid t) ts
        = dialFailures (attempt_connect_failure reg pid t) pid ts from rfl]
    rw [ih, attempt_connect_failure, find?_modifyR]
    cases find? reg pid <;> simp

theorem dial_fold_quality (p : PeerInfo) (ts : List ℤ) :
    (ts.foldl (fun q t => { q with health := q.health.record_failure t }) p).health.quality
      = qstep^[ts.length] p.health.quality := by
  induction ts generalizing p with
  | nil => rfl
  | cons t ts ih =>
    rw [List.foldl_cons, ih, List.length_cons, Function.iterate_succ_apply]
    rfl

theorem dial_fold_connected_url (p : PeerInfo) (ts : List ℤ) :
    (ts.foldl (fun q t => { q with health := q.health.record_failure t }) p).connected
        = p.connected ∧
    (ts.foldl (fun q t => { q with health := q.health.record_failure t }) p).url = p.url := by
  induction ts generalizing p with
  | nil => exact ⟨rfl, rfl⟩
  | cons t ts ih => exact ih _

theorem qstep_iter_zero (n : ℕ) : qstep^[n] 0 = 0 := by
  induction n with
  | zero => rfl
  | succ n ih =>
    rw [Function.iterate_succ_apply, show qstep 0 = 0 from by decide, ih]

/-- C3 (amended): it takes exactly 6 — not 5 — consecutive dial failures to
drive a registered peer's quality to 0.0; from that point the reconnect sweep
excludes the peer forever (any number of further failures leaves it at
quality 0 and ineligible, and with no success event the quality can never
rise again). -/
theorem C3_six_failures_permanently_exclude
    (pid url : String) (t0 : ℤ) (ts : List ℤ) (h6 : ts.length = 6) (more : List ℤ) :
    ((find? (dialFailures (register_peer [] pid url t0) pid ts) pid).map
        (fun p => p.health.quality) = some 0) ∧
    ((find? (dialFailures (dialFailures (register_peer [] pid url t0) pid ts) pid more)
        pid).map reconnectEligible = some false) := by
  have hq6 : ∀ p : PeerInfo, p.health.quality = 1 →
      (ts.foldl (fun q t => { q with health := q.health.record_failure t }) p).health.quality
        = 0 := by
    intro p hp
    rw [dial_fold_quality, h6, hp]
    decide
  constructor
  · rw [find?_dialFailures, find?_register_peer]
    exact congrArg some (hq6 (PeerInfo.with_url pid url t0) rfl)
  · rw [find?_dialFailures, find?_dialFailures, find?_register_peer]
    have hq : (more.foldl (fun q t => { q with health := q.health.record_failure t })
        (ts.foldl (fun q t => { q with health := q.health.record_failure t })
          (PeerInfo.with_url pid url t0))).health.quality = 0 := by
      rw [dial_fold_quality, hq6 (PeerInfo.with_url pid url t0) rfl, qstep_iter_zero]
    have helig : reconnectEligible
        (more.foldl (fun q t => { q with health := q.health.record_failure t })
          (ts.foldl (fun q t => { q with health := q.health.record_failure t })
            (PeerInfo.with_url pid url t0))) = false := by
      unfold reconnectEligible
      rw [hq, show decide ((0:ℚ) < 0) = false from by decide, Bool.and_false]
    exact congrArg some helig

/-- Closed witness for the amended C3 at six concrete failures. -/
theorem C3_six_failures_witness :
    ([0, 0, 0, 0, 0, 0] : List ℤ).length = 6 ∧
    ((find? (dialFailures (register_peer [] "p2" "ws:p2" 0) "p2"
        [0, 0, 0, 0, 0, 0]) "p2").map (fun p => p.health.quality) = some 0) :=
  ⟨by decide,
   (C3_six_failures_permanently_exclude "p2" "ws:p2" 0 [0, 0, 0, 0, 0, 0] (by decide) []).1⟩

/-- Concrete peer at the top of the weight range with co-firing timestamps
50 ms apart: default constants, weight = w_max = 1.0. -/
def peerAtMax : PeerInfo :=
  { PeerInfo.new "p" 0 with
      weight := 1
      last_fire_local := 1050
      last_fire_remote := 1000 }

/-- Concrete peer at weight 1/2 with co-firing timestamps 50 ms apart. -/
def peerAtHalf : PeerInfo :=
  { PeerInfo.new "q" 0 with
      weight := 1/2
      last_fire_local := 1050
      last_fire_remote := 1000 }

/-- C8 counterexample: starting exactly at w_max = 1.0 with the two fire
timestamps 50 ms apart (co-fire), `hebbian_update(120)` strictly DEcreases
the weight — the decay step outweighs the potentiation near w_max — so the
update does not move the weight strictly toward w_max for every starting
weight in [w_min, w_max]. -/
theorem C8_counterexample :
    (peerAtMax.last_fire_local - peerAtMax.last_fire_remote).natAbs = 50 ∧
    (peerAtMax.hebbian_update 120).weight < peerAtMax.weight := by
  constructor <;> decide

/-- C8 (amended): with the default Hebbian constants and both fire timestamps
recorded, `hebbian_update(120)` with the fire events 50 ms apart (inside the
120 ms window) strictly increases every starting weight in [w_min, 0.99], and
with the fire events 500 ms apart (outside the window) strictly decreases
every starting weight in (w_min, w_max].  The two endpoint restrictions are
forced: near w_max the decay outweighs the potentiation (see the
counterexample), and at exactly w_min the depression is clamped back to
w_min. -/
theorem C8_learning_direction_amended (p : PeerInfo)
    (hmin : p.w_min = f01) (hmax : p.w_max = 1)
    (hep : p.eta_pos = f006) (hen : p.eta_neg = f003) (hd : p.decay = f0002)
    (hl : 0 < p.last_fire_local) (hr : 0 < p.last_fire_remote) :
    ((p.last_fire_local - p.last_fire_remote).natAbs = 50 →
      f01 ≤ p.weight → p.weight ≤ 99/100 →
      p.weight < (p.hebbian_update 120).weight) ∧
    ((p.last_fire_local - p.last_fire_remote).natAbs = 500 →
      f01 < p.weight → p.weight ≤ 1 →
      (p.hebbian_update 120).weight < p.weight) := by
  have hDclamp : fclamp (fsub 1 (fmul f0002 (fdiv (i64f 120) 1000))) 0 1
      = 4502518763459927/4503599627370496 := by decide
  have hf006v : f006 = 1080863910568919/18014398509481984 := by decide
  have hf003v : f003 = 1080863910568919/36028797018963968 := by decide
  have hf01v : f01 = 3602879701896397/36028797018963968 := by decide
  have hdw : PeerInfo.decayedWeight p 120
      = r64 (p.weight * (4502518763459927/4503599627370496)) := by
    unfold PeerInfo.decayedWeight
    rw [hd, hDclamp]
    rfl
  constructor
  · -- co-fire: strictly toward w_max on [w_min, 0.99]
    intro h50 hwlo hwhi
    have hcond : (((p.last_fire_local - p.last_fire_remote).natAbs : ℤ) ≤ 120) := by
      rw [h50]; norm_num
    have hweq : (p.hebbian_update 120).weight
        = fclamp
            (r64 (r64 (p.weight * (4502518763459927/4503599627370496))
              + r64 ((1080863910568919/18014398509481984)
                  * r64 (1 - r64 (p.weight * (4502518763459927/4503599627370496))))))
            f01 1 := by
      simp only [PeerInfo.hebbian_update, PeerInfo.firedWeight,
        if_pos (And.intro hl hr), if_pos hcond]
      rw [hmin, hmax, hep, hf006v, hdw]
      rfl
    rw [hweq]
    have hw0 : (0:ℚ) ≤ p.weight := le_trans (by decide) hwlo
    have hwlo' : (1:ℚ)/10 ≤ p.weight := le_trans (by rw [hf01v]; norm_num) hwlo
    set w := p.weight with hwdef
    have hwD1 : w * (4502518763459927/4503599627370496) ≤ w := by nlinarith
    have hwD0 : 0 ≤ w * (4502518763459927/4503599627370496) := by positivity
    obtain ⟨a1, a2⟩ := r64_bounds (x := w * (4502518763459927/4503599627370496))
      (by linarith) (by linarith)
    set a := r64 (w * (4502518763459927/4503599627370496)) with ha
    obtain ⟨b1, b2⟩ := r64_bounds (x := 1 - a) (by linarith) (by linarith)
    set b := r64 (1 - a) with hb
    obtain ⟨c1, c2⟩ := r64_bounds (x := (1080863910568919/18014398509481984) * b)
      (by nlinarith) (by nlinarith)
    set c := r64 ((1080863910568919/18014398509481984) * b) with hc
    obtain ⟨e1, e2⟩ := r64_bounds (x := a + c) (by nlinarith) (by nlinarith)
    set e := r64 (a + c) with he
    have hgt : w < e := by nlinarith
    unfold fclamp
    split_ifs with hlo hhi
    · linarith
    · linarith
    · exact hgt
  · -- anti-fire: strictly toward w_min on (w_min, w_max]
    intro h500 hwlo hwhi
    have hcond : ¬(((p.last_fire_local - p.last_fire_remote).natAbs : ℤ) ≤ 120) := by
      rw [h500]; norm_num
    have hweq : (p.hebbian_update 120).weight
        = fclamp
            (r64 (r64 (p.weight * (4502518763459927/4503599627370496))
              - r64 ((1080863910568919/36028797018963968)
                  * r64 (r64 (p.weight * (4502518763459927/4503599627370496))
                      - (3602879701896397/36028797018963968)))))
            f01 1 := by
      simp only [PeerInfo.hebbian_update, PeerInfo.firedWeight,
        if_pos (And.intro hl hr), if_neg hcond]
      rw [hmin, hmax, hen, hf003v, hdw, hf01v]
      rfl
    rw [hweq]
    have hwlo' : (1:ℚ)/10 < p.weight := lt_of_le_of_lt (by rw [hf01v]; norm_num) hwlo
    have hw0 : (0:ℚ) ≤ p.weight := by linarith
    set w := p.weight with hwdef
    have hwD1 : w * (4502518763459927/4503599627370496) ≤ w := by nlinarith
    have hwD0 : 0 ≤ w * (4502518763459927/4503599627370496) := by positivity
    have hwDg : w * (89/100) ≤ w * (4502518763459927/4503599627370496) := by nlinarith
    obtain ⟨a1, a2⟩ := r64_bounds (x := w * (4502518763459927/4503599627370496))
      (by linarith) (by linarith)
    set a := r64 (w * (4502518763459927/4503599627370496)) with ha
    obtain ⟨b1, b2⟩ := r64_bounds (x := a - (3602879701896397/36028797018963968))
      (by linarith) (by linarith)
    set b := r64 (a - (3602879701896397/36028797018963968)) with hb
    obtain ⟨c1, c2⟩ := r64_bounds (x := (1080863910568919/36028797018963968) * b)
      (by nlinarith) (by nlinarith)
    set c := r64 ((1080863910568919/36028797018963968) * b) with hc
    obtain ⟨e1, e2⟩ := r64_bounds (x := a - c) (by nlinarith) (by nlinarith)
    set e := r64 (a - c) with he
    have hlt : e < w := by nlinarith
    have hle1 : e < 1 := by nlinarith
    unfold fclamp
    split_ifs with hlo hhi
    · rw [hf01v] at hwlo; exact hwlo
    · linarith
    · exact hlt

/-- Closed witness for the amended C8: from weight 1/2 a co-fire update
strictly increases the weight. -/
theorem C8_learning_direction_witness :
    f01 ≤ peerAtHalf.weight ∧
    peerAtHalf.weight < (peerAtHalf.hebbian_update 120).weight :=
  ⟨by decide,
   (C8_learning_direction_amended peerAtHalf
      rfl rfl rfl rfl rfl (by decide) (by decide)).1
    (by decide) (by decide) (by decide)⟩

end Mesh
